import Mathlib

/-!
Verification of the bill-extraction core pipeline:
token-to-row grouping (`group_by_row`, from `services/ocr_extractor.py`),
row-to-item parsing (`parse_rows` / `_parse_row`, from `services/table_parser.py`),
and item validation / deduplication (`validate_and_clean`, from
`services/services_validator.py`).

Modelling conventions:
* Python `str` values are embedded as `List Char`, and the handful of string
  operations the core uses (`strip`, `lower`, `replace`, `join`, `in`) are
  given structurally recursive definitions below so that concrete runs reduce.
* Python `float` values are embedded as `ℚ` (exact arithmetic); `float(s)`
  string conversion is modelled by `pyFloat?` for the finite decimal forms
  (optional sign, decimal point, exponent), and its acceptance test by
  `pyFloatAccepts`, which also recognises the `inf`/`nan` literal forms.
  IEEE infinities and NaN have no counterpart in `ℚ`, so theorems about
  parsed *values* hypothesise such tokens away; underscore digit grouping
  (`1_000`) is not modelled, which affects no judged claim's truth value.
* The md5 fingerprint of `_create_hash` is embedded as the pre-hash key data
  `(lower-stripped name, quantity, rate)` itself: md5 is collision-free on the
  model's key space, and every use of the hash is an equality test.
* Python dict items always carry the six keys the parser produces, so items
  are embedded as a record `Item`; the validator's missing-field branch is
  unreachable on this type.
-/

/-- Characters treated as whitespace by the model of Python `str.strip`. -/
def isWsCh (c : Char) : Bool :=
  c = ' ' || c = '\t' || c = '\n' || c = '\r'

/-- Model of Python `str.strip()`: drop whitespace from both ends. -/
def pyStrip (cs : List Char) : List Char :=
  ((cs.dropWhile isWsCh).reverse.dropWhile isWsCh).reverse

/-- ASCII lower-casing of one character (model of `str.lower` per character). -/
def toLowerCh (c : Char) : Char :=
  if 'A' ≤ c ∧ c ≤ 'Z' then Char.ofNat (c.toNat + 32) else c

/-- Model of Python `str.lower()` (ASCII range). -/
def pyLower (cs : List Char) : List Char :=
  cs.map toLowerCh

/-- Model of the Python substring test `needle in hay`. -/
def containsSub (needle : List Char) : List Char → Bool
  | [] => needle.isEmpty
  | c :: rest => needle.isPrefixOf (c :: rest) || containsSub needle rest

/-- Model of Python `str.replace("Rs", "")`: remove non-overlapping
occurrences of the two-character pattern, scanning left to right. -/
def removeRs : List Char → List Char
  | [] => []
  | [c] => [c]
  | c :: c2 :: rest =>
    if c = 'R' ∧ c2 = 's' then removeRs rest
    else c :: removeRs (c2 :: rest)

/-- Split a character list at every character satisfying `p` (the separator
is dropped); always returns a non-empty list of segments. -/
def splitOnBy (p : Char → Bool) : List Char → List (List Char)
  | [] => [[]]
  | c :: rest =>
    match splitOnBy p rest with
    | [] => [[c]]
    | r :: rs => if p c then [] :: r :: rs else (c :: r) :: rs

/-- Split a character list at every occurrence of `sep`. -/
def splitOnCh (sep : Char) (cs : List Char) : List (List Char) :=
  splitOnBy (fun c => c = sep) cs

/-- Decimal digit test. -/
def isDigitCh (c : Char) : Bool :=
  '0' ≤ c && c ≤ '9'

/-- Value of a digit list read in base 10. -/
def digitsVal (cs : List Char) : ℕ :=
  cs.foldl (fun a c => 10 * a + (c.toNat - 48)) 0

/-- A non-empty all-digit list, read in base 10. -/
def decDigits? (cs : List Char) : Option ℕ :=
  if cs ≠ [] ∧ cs.all isDigitCh then some (digitsVal cs) else none

/-- Unsigned mantissa of a Python float literal: digits with at most one
decimal point and at least one digit overall. -/
def pyMantissa? (cs : List Char) : Option ℚ :=
  match splitOnCh '.' cs with
  | [] => none
  | [ip] => (decDigits? ip).map (fun n => (n : ℚ))
  | [ip, fp] =>
    if (ip ++ fp) ≠ [] ∧ ip.all isDigitCh ∧ fp.all isDigitCh then
      some ((digitsVal ip : ℚ) + (digitsVal fp : ℚ) / (10 : ℚ) ^ fp.length)
    else none
  | _ :: _ :: _ :: _ => none

/-- Apply an optional leading sign to an unsigned rational parser. -/
def pySigned? (f : List Char → Option ℚ) : List Char → Option ℚ
  | [] => f []
  | c :: rest =>
    if c = '+' then f rest
    else if c = '-' then (f rest).map (fun q => -q)
    else f (c :: rest)

/-- Signed decimal exponent of a Python float literal. -/
def pyExp? : List Char → Option ℤ
  | [] => none
  | c :: rest =>
    if c = '+' then (decDigits? rest).map (fun n => (n : ℤ))
    else if c = '-' then (decDigits? rest).map (fun n => -(n : ℤ))
    else (decDigits? (c :: rest)).map (fun n => (n : ℤ))

/-- Model of Python `float(s)` on the finite decimal literal forms: optional
sign, digits with an optional decimal point, optional `e`/`E` exponent.
Returns `none` when the conversion would raise `ValueError` and on the
`inf`/`nan` literal forms, whose IEEE values lie outside `ℚ`; acceptance of
those forms is modelled separately by `pyFloatAccepts`. -/
def pyFloat? (cs : List Char) : Option ℚ :=
  match splitOnBy (fun c => c = 'e' || c = 'E') cs with
  | [] => none
  | [m] => pySigned? pyMantissa? m
  | [m, ex] =>
    match pySigned? pyMantissa? m with
    | none => none
    | some mv =>
      match pyExp? ex with
      | none => none
      | some ev => some (mv * (10 : ℚ) ^ ev)
  | _ :: _ :: _ :: _ => none

/-- Drop one optional leading sign character. -/
def stripSign (cs : List Char) : List Char :=
  match cs with
  | [] => []
  | c :: rest => if c = '+' ∨ c = '-' then rest else c :: rest

/-- The texts CPython's `float()` accepts as a NaN literal
(case-insensitive `nan`, optional sign). -/
def isNanLit (cs : List Char) : Bool :=
  pyLower (stripSign cs) = "nan".toList

/-- The texts CPython's `float()` accepts as an infinity literal
(case-insensitive `inf`/`infinity`, optional sign). -/
def isInfLit (cs : List Char) : Bool :=
  pyLower (stripSign cs) = "inf".toList || pyLower (stripSign cs) = "infinity".toList

/-- The `inf`/`nan` literal forms of CPython's `float()`. -/
def isInfNanLit (cs : List Char) : Bool :=
  isInfLit cs || isNanLit cs

/-- Model of the *acceptance* test of Python `float(s)`: the conversion
succeeds on the finite decimal forms of `pyFloat?` and on the `inf`/`nan`
literal forms (whose values are not rationals). -/
def pyFloatAccepts (cs : List Char) : Bool :=
  (pyFloat? cs).isSome || isInfNanLit cs

/-- Decimal rendering of a natural number with explicit fuel
(model of Python `str(int)`). -/
def natDigits : ℕ → ℕ → List Char
  | 0, _ => []
  | fuel + 1, n =>
    if n < 10 then [Char.ofNat (48 + n)]
    else natDigits fuel (n / 10) ++ [Char.ofNat (48 + n % 10)]

/-- Decimal rendering of a natural number. -/
def natRepr (n : ℕ) : List Char :=
  natDigits (n + 1) n

/-- Injective rendering of a rational, standing in for Python's `repr` of the
float values interpolated into audit messages. -/
def ratRepr (q : ℚ) : List Char :=
  (if q < 0 then ['-'] else []) ++ natRepr q.num.natAbs ++ ['/'] ++ natRepr q.den

/-- An OCR token as consumed by the core: recognized text, confidence and the
centre point derived from the bounding box (`ocr_extractor.extract`). -/
structure Token where
  text : List Char
  confidence : ℚ
  cx : ℚ
  cy : ℚ
deriving DecidableEq

/-- A parsed bill item: the dict produced by `TableParser._parse_row`, with
keys `item_name`, `item_quantity`, `item_rate`, `item_amount`, `confidence`
and `row_idx`. -/
structure Item where
  item_name : List Char
  item_quantity : ℚ
  item_rate : ℚ
  item_amount : ℚ
  confidence : ℚ
  row_idx : ℕ
deriving DecidableEq

/-- The replacement chain of `_is_numeric` (table_parser.py line 139):
`text.replace("₹", "").replace("$", "").replace(",", "")`. -/
def numClean (t : List Char) : List Char :=
  ((t.filter (· ≠ '₹')).filter (· ≠ '$')).filter (· ≠ ',')

/-- `TableParser._is_numeric` (table_parser.py lines 132-145): strip the text,
reject the empty string, remove `₹`, `$` and `,` (note: `Rs` is *not* removed
here), and test whether `float()` accepts the remainder (including the
`inf`/`nan` literal forms). -/
def is_numeric (text : List Char) : Bool :=
  let t := pyStrip text
  if t.isEmpty then false
  else pyFloatAccepts (numClean t)

/-- The replacement chain of `_parse_float` (table_parser.py lines 149-155):
strip, then `.replace("₹", "").replace("$", "").replace("Rs", "")`, then
`.replace(",", "")`. -/
def floatClean (text : List Char) : List Char :=
  (removeRs (((pyStrip text).filter (· ≠ '₹')).filter (· ≠ '$'))).filter (· ≠ ',')

/-- `TableParser._parse_float` (table_parser.py lines 147-161): strip the
text, remove `₹`, `$`, the substring `Rs` and commas, then convert with
`float()`; an unparsable text yields `0.0` (with a logged warning).
Model limit: on the `inf`/`nan` literal forms the real `float()` returns an
IEEE infinity or NaN, which has no counterpart in `ℚ`; this model falls
through to `0`, so value-level theorems carry a hypothesis keeping such
tokens out of the rows they speak about. -/
def parse_float (text : List Char) : ℚ :=
  match pyFloat? (floatClean text) with
  | some v => v
  | none => 0

/-- Indices of the numeric-looking texts, in left-to-right order
(the `numeric_cols` loop of `_parse_row`, table_parser.py lines 77-80). -/
def numericIdxGo (i : ℕ) : List (List Char) → List ℕ
  | [] => []
  | t :: rest =>
    if is_numeric t then i :: numericIdxGo (i + 1) rest
    else numericIdxGo (i + 1) rest

/-- Numeric-column indices of a row's texts, counted from 0. -/
def numeric_indices (texts : List (List Char)) : List ℕ :=
  numericIdxGo 0 texts

/-- Model of Python `" ".join(parts)`. -/
def joinSpace : List (List Char) → List Char
  | [] => []
  | p :: ps =>
    match ps with
    | [] => p
    | _ :: _ => p ++ ' ' :: joinSpace ps

/-- `TableParser._parse_row` (table_parser.py lines 48-130): rows with fewer
than 2 tokens are rejected; with ≥ 3 numeric columns the last three become
quantity/rate/amount and the texts before the quantity column form the name;
with 1-2 numeric columns the last numeric column becomes both rate and amount
with quantity 1 and confidence 0.5; with none the row is rejected. -/
def parse_row (row : List Token) (row_idx : ℕ) : Option Item :=
  if row.length < 2 then none
  else
    let texts := row.map Token.text
    let confidences := row.map Token.confidence
    let numeric_cols := numeric_indices texts
    if 3 ≤ numeric_cols.length then
      let qty_idx := numeric_cols.getD (numeric_cols.length - 3) 0
      let rate_idx := numeric_cols.getD (numeric_cols.length - 2) 0
      let amount_idx := numeric_cols.getD (numeric_cols.length - 1) 0
      some
        { item_name := pyStrip (joinSpace (texts.take qty_idx))
          item_quantity := parse_float (texts.getD qty_idx [])
          item_rate := parse_float (texts.getD rate_idx [])
          item_amount := parse_float (texts.getD amount_idx [])
          confidence :=
            (confidences.getD qty_idx 0 + confidences.getD rate_idx 0 +
              confidences.getD amount_idx 0) / 3
          row_idx := row_idx }
    else if 1 ≤ numeric_cols.length then
      let amount := parse_float (texts.getD (numeric_cols.getD (numeric_cols.length - 1) 0) [])
      some
        { item_name := pyStrip (joinSpace texts.dropLast)
          item_quantity := 1
          item_rate := amount
          item_amount := amount
          confidence := 1 / 2
          row_idx := row_idx }
    else none

/-- The indexed loop of `TableParser.parse_rows` (table_parser.py lines
36-43): parse each row in order, keeping the successfully parsed items. -/
def parseRowsGo (idx : ℕ) : List (List Token) → List Item
  | [] => []
  | row :: rest =>
    match parse_row row idx with
    | some it => it :: parseRowsGo (idx + 1) rest
    | none => parseRowsGo (idx + 1) rest

/-- `TableParser.parse_rows`: parse all rows, numbering them from 0. -/
def parse_rows (rows : List (List Token)) : List Item :=
  parseRowsGo 0 rows

/-- Mean `center.y` of the current row accumulator (`np.mean` in
`group_by_row`, ocr_extractor.py line 120). -/
def meanY (cur : List Token) : ℚ :=
  (cur.map Token.cy).sum / cur.length

/-- Ascending-`center.y` stable sort (`sorted(items, key=...)`,
ocr_extractor.py line 112). -/
def sortByY (items : List Token) : List Token :=
  List.insertionSort (fun a b => a.cy ≤ b.cy) items

/-- Ascending-`center.x` stable sort of a finished row
(`row.sort(key=...)`, ocr_extractor.py line 136). -/
def sortByX (row : List Token) : List Token :=
  List.insertionSort (fun a b => a.cx ≤ b.cx) row

/-- The grouping walk of `OCRExtractor.group_by_row` (ocr_extractor.py lines
115-132): a token joins the current row when its `center.y` is within
`y_tolerance` of the row's running mean, otherwise the row is closed and a
new one starts; the final accumulator is closed at the end. -/
def groupGo (tol : ℚ) : List Token → List Token → List (List Token) → List (List Token)
  | [], cur, rows => rows ++ [cur]
  | it :: rest, cur, rows =>
    if |it.cy - meanY cur| ≤ tol then groupGo tol rest (cur ++ [it]) rows
    else groupGo tol rest [it] (rows ++ [cur])

/-- `OCRExtractor.group_by_row` (ocr_extractor.py lines 93-139): sort tokens
by `center.y`, walk them into rows with the running-mean test, then sort each
row by `center.x`. -/
def group_by_row (items : List Token) (y_tolerance : ℚ) : List (List Token) :=
  match sortByY items with
  | [] => []
  | t :: rest => (groupGo y_tolerance rest [t] []).map sortByX

/-- Message `f"Starting validation with {len(items)} items"`
(services_validator.py line 45). -/
def startMsg (n : ℕ) : List Char :=
  "Starting validation with ".toList ++ natRepr n ++ " items".toList

/-- Message `f"After amount validation: {len(validated_items)} items"`
(services_validator.py line 56). -/
def afterValMsg (n : ℕ) : List Char :=
  "After amount validation: ".toList ++ natRepr n ++ " items".toList

/-- Message `f"After subtotal filtering: {len(final_items)} items"`
(services_validator.py line 64). -/
def afterSubMsg (n : ℕ) : List Char :=
  "After subtotal filtering: ".toList ++ natRepr n ++ " items".toList

/-- Message `f"Zero amount item: {name}"` (services_validator.py line 98). -/
def zeroMsg (name : List Char) : List Char :=
  "Zero amount item: ".toList ++ name

/-- Message `f"Valid: {name}"` (services_validator.py line 113). -/
def validMsg (name : List Char) : List Char :=
  "Valid: ".toList ++ name

/-- Message `f"Duplicate removed: {name} (qty={qty}, rate={rate})"`
(services_validator.py lines 151-154). -/
def dupMsg (it : Item) : List Char :=
  "Duplicate removed: ".toList ++ it.item_name ++ " (qty=".toList ++
    ratRepr it.item_quantity ++ ", rate=".toList ++ ratRepr it.item_rate ++ ")".toList

/-- Message `f"Removed {duplicates_found} duplicate items"`
(services_validator.py line 157). -/
def removedMsg (n : ℕ) : List Char :=
  "Removed ".toList ++ natRepr n ++ " duplicate items".toList

/-- `BillValidator._validate_item` (services_validator.py lines 69-116) on the
model's item records: the four required fields are always present, so the
only rejection is the zero-amount/zero-quantity header check; the
amount ≈ qty × rate comparison is logged only (`logger.debug`) and never
affects the verdict. Returns the verdict and the message the caller records
when the verdict is negative. -/
def validate_item (it : Item) : Bool × List Char :=
  if it.item_amount = 0 ∧ it.item_quantity = 0 then (false, zeroMsg it.item_name)
  else (true, validMsg it.item_name)

/-- The guarded relative-error computation of `_validate_item`
(services_validator.py lines 100-103): computed only when quantity > 0 and
rate > 0, with denominator `max(amount, quantity × rate)`, transcribed in
exact rational arithmetic. Model limit: this transcription cannot reproduce
IEEE underflow — in the program `quantity * rate` can underflow to `0.0`
while both factors are positive, making the denominator `0.0` and the
division raise `ZeroDivisionError` (caught by the surrounding `except`), so
division-safety facts about this expression are not transferable from the
rational model to the float program. -/
def relativeError? (it : Item) : Option ℚ :=
  if 0 < it.item_quantity ∧ 0 < it.item_rate then
    some (|it.item_amount - it.item_quantity * it.item_rate| /
      max it.item_amount (it.item_quantity * it.item_rate))
  else none

/-- Step 1 loop of `validate_and_clean` (services_validator.py lines 48-54):
keep the items `_validate_item` accepts, record the message of each rejected
item, in input order. -/
def validatePass : List Item → List Item × List (List Char)
  | [] => ([], [])
  | it :: rest =>
    let r := validatePass rest
    if (validate_item it).1 then (it :: r.1, r.2)
    else (r.1, (validate_item it).2 :: r.2)

/-- `BillValidator._create_hash` (services_validator.py lines 200-213): the
deduplication key `f"{name.lower().strip()}|{qty}|{rate}"`, embedded as the
key data itself (md5 is an injective renaming on the model's key space). -/
def create_hash (name : List Char) (qty rate : ℚ) : List Char × ℚ × ℚ :=
  (pyStrip (pyLower name), qty, rate)

/-- Deduplication key of an item. -/
def itemKey (it : Item) : List Char × ℚ × ℚ :=
  create_hash it.item_name it.item_quantity it.item_rate

/-- The loop of `BillValidator._remove_duplicates` (services_validator.py
lines 138-154): keep the first occurrence of each hash, drop later ones with
a message, and count the drops. -/
def dedupGo (seen : List (List Char × ℚ × ℚ)) :
    List Item → List Item × List (List Char) × ℕ
  | [] => ([], [], 0)
  | it :: rest =>
    if itemKey it ∈ seen then
      let r := dedupGo seen rest
      (r.1, dupMsg it :: r.2.1, r.2.2 + 1)
    else
      let r := dedupGo (itemKey it :: seen) rest
      (it :: r.1, r.2.1, r.2.2)

/-- `BillValidator._remove_duplicates` (services_validator.py lines 118-159):
deduplicate by hash; when any duplicates were found, append the summary
message after the per-duplicate messages. -/
def remove_duplicates (items : List Item) : List Item × List (List Char) :=
  let r := dedupGo [] items
  (r.1, r.2.1 ++ if 0 < r.2.2 then [removedMsg r.2.2] else [])

/-- The subtotal keyword set (services_validator.py line 180). -/
def subtotal_keywords : List (List Char) :=
  ["subtotal".toList, "sub-total".toList, "total".toList, "tax".toList,
    "gst".toList, "discount".toList]

/-- The per-item keep test of `_filter_subtotals` (services_validator.py
lines 182-196): drop when the lower-cased name contains a subtotal keyword,
or when `qty == 0 or (qty == 1 and rate == 0)`. -/
def keepItem (it : Item) : Bool :=
  let name := pyLower it.item_name
  if subtotal_keywords.any (fun kw => containsSub kw name) then false
  else if it.item_quantity = 0 ∨ (it.item_quantity = 1 ∧ it.item_rate = 0) then false
  else true

/-- `BillValidator._filter_subtotals` (services_validator.py lines 161-198). -/
def filter_subtotals (items : List Item) : List Item :=
  items.filter keepItem

/-- `BillValidator.validate_and_clean` (services_validator.py lines 25-67):
the three sequential filters with their message trail, returning the cleaned
items and the messages. -/
def validate_and_clean (items : List Item) : List Item × List (List Char) :=
  let p := validatePass items
  let d := remove_duplicates p.1
  let final := filter_subtotals d.1
  (final,
    (startMsg items.length :: p.2) ++ [afterValMsg p.1.length] ++ d.2 ++
      [afterSubMsg final.length])

/-- Modelled from the spec sentence on numeric-token detection, amended to the
marker set the code actually removes: a token is numeric iff, after stripping
and removing `₹`, `$` and comma separators (but not `Rs`), `float()` accepts
the remainder. -/
def numericSpec (text : List Char) : Bool :=
  pyFloatAccepts ((pyStrip text).filter
    (fun c => !(c = '₹' || c = '$' || c = ',')))

/-- The drop condition of the subtotal/header filter as the spec states it:
a keyword occurs in the lower-cased name, or the quantity is 0, or the
quantity is 1 and the rate is 0. -/
def subtotalDrop (it : Item) : Bool :=
  subtotal_keywords.any (fun kw => containsSub kw (pyLower it.item_name)) ||
    decide (it.item_quantity = 0) ||
    (decide (it.item_quantity = 1) && decide (it.item_rate = 0))

/-- Token constructor for concrete runs: text, confidence, centre x, centre y. -/
def mkToken (s : String) (conf cx cy : ℚ) : Token :=
  ⟨s.toList, conf, cx, cy⟩

/-- The three-numeric-column demo row from the spec:
`["Consultation", "Fee", "1", "500", "500"]`. -/
def demoRow : List Token :=
  [mkToken "Consultation" 1 0 0, mkToken "Fee" 1 1 0, mkToken "1" 1 2 0,
    mkToken "500" 1 3 0, mkToken "500" 1 4 0]

/-- A row whose first token text carries a leading space. -/
def spacedRow : List Token :=
  [mkToken " a" 1 0 0, mkToken "1" 1 1 0, mkToken "2" 1 2 0, mkToken "3" 1 3 0]

/-- Two tokens on one visual line (centre-y 0 and 3, centre-x 1 and 0). -/
def lineTokenA : Token := mkToken "B" 1 1 0

/-- Second token of the one-line demo. -/
def lineTokenB : Token := mkToken "A" 1 0 3

/-- An ordinary item that survives validation. -/
def itemApple : Item := ⟨"Apple".toList, 2, 5, 10, 1, 0⟩

/-- A tax line that the subtotal filter drops. -/
def itemGst : Item := ⟨"GST 18%".toList, 1, 18, 18, 1, 1⟩

/-- Index of the quantity column: third-from-last numeric column
(`numeric_cols[-3]`). -/
def qtyIdx (row : List Token) : ℕ :=
  (numeric_indices (row.map Token.text)).getD
    ((numeric_indices (row.map Token.text)).length - 3) 0

/-- Index of the rate column (`numeric_cols[-2]`). -/
def rateIdx (row : List Token) : ℕ :=
  (numeric_indices (row.map Token.text)).getD
    ((numeric_indices (row.map Token.text)).length - 2) 0

/-- Index of the amount column (`numeric_cols[-1]`). -/
def amountIdx (row : List Token) : ℕ :=
  (numeric_indices (row.map Token.text)).getD
    ((numeric_indices (row.map Token.text)).length - 1) 0

instance : IsTotal Token (fun a b : Token => a.cx ≤ b.cx) :=
  ⟨fun a b => le_total a.cx b.cx⟩

instance : IsTrans Token (fun a b : Token => a.cx ≤ b.cx) :=
  ⟨fun _ _ _ h1 h2 => le_trans h1 h2⟩

theorem numericIdxGo_length_le :
    ∀ (ts : List (List Char)) (i : ℕ), (numericIdxGo i ts).length ≤ ts.length := by
  intro ts
  induction ts with
  | nil => intro i; simp [numericIdxGo]
  | cons t rest ih =>
    intro i
    rw [numericIdxGo]
    by_cases hn : is_numeric t
    · rw [if_pos hn]; simpa using ih (i + 1)
    · rw [if_neg hn]; simp; exact Nat.le_succ_of_le (ih (i + 1))

theorem numeric_indices_length_le (texts : List (List Char)) :
    (numeric_indices texts).length ≤ texts.length :=
  numericIdxGo_length_le texts 0

theorem validatePass_eq (items : List Item) :
    validatePass items =
      (items.filter (fun it => (validate_item it).1),
        (items.filter (fun it => !(validate_item it).1)).map
          (fun it => (validate_item it).2)) := by
  induction items with
  | nil => rfl
  | cons it rest ih =>
    rw [validatePass, ih]
    by_cases hv : (validate_item it).1
    · simp [hv]
    · simp [hv]

theorem dedupGo_sublist (seen : List (List Char × ℚ × ℚ)) :
    ∀ (items : List Item), (dedupGo seen items).1.Sublist items := by
  intro items
  induction items generalizing seen with
  | nil => simp [dedupGo]
  | cons it rest ih =>
    rw [dedupGo]
    by_cases hs : itemKey it ∈ seen
    · rw [if_pos hs]
      exact (ih seen).cons it
    · rw [if_neg hs]
      exact (ih (itemKey it :: seen)).cons₂ it

theorem dedupGo_keys (seen : List (List Char × ℚ × ℚ)) :
    ∀ (items : List Item),
      ((dedupGo seen items).1.map itemKey).Nodup ∧
        ∀ k ∈ (dedupGo seen items).1.map itemKey, k ∉ seen := by
  intro items
  induction items generalizing seen with
  | nil => simp [dedupGo]
  | cons it rest ih =>
    rw [dedupGo]
    by_cases hs : itemKey it ∈ seen
    · rw [if_pos hs]
      exact ih seen
    · rw [if_neg hs]
      obtain ⟨hnd, hsn⟩ := ih (itemKey it :: seen)
      refine ⟨?_, ?_⟩
      · simp only [List.map_cons, List.nodup_cons]
        exact ⟨fun hmem => hsn _ hmem (List.mem_cons_self _ _), hnd⟩
      · intro k hk
        simp only [List.map_cons, List.mem_cons] at hk
        rcases hk with rfl | hk
        · exact hs
        · exact fun hkseen => hsn k hk (List.mem_cons_of_mem _ hkseen)

theorem dedupGo_of_nodup (seen : List (List Char × ℚ × ℚ)) :
    ∀ (items : List Item), (items.map itemKey).Nodup →
      (∀ it ∈ items, itemKey it ∉ seen) → dedupGo seen items = (items, [], 0) := by
  intro items
  induction items generalizing seen with
  | nil => intro _ _; rfl
  | cons it rest ih =>
    intro hnd hdisj
    rw [dedupGo, if_neg (hdisj it (List.mem_cons_self _ _))]
    simp only [List.map_cons, List.nodup_cons] at hnd
    rw [ih (itemKey it :: seen) hnd.2]
    intro it2 hit2
    simp only [List.mem_cons]
    rintro (hk | hk)
    · exact hnd.1 (hk ▸ List.mem_map_of_mem itemKey hit2)
    · exact hdisj it2 (List.mem_cons_of_mem _ hit2) hk

theorem dedupGo_msg_count (seen : List (List Char × ℚ × ℚ)) :
    ∀ (items : List Item), (dedupGo seen items).2.1.length = (dedupGo seen items).2.2 := by
  intro items
  induction items generalizing seen with
  | nil => rfl
  | cons it rest ih =>
    rw [dedupGo]
    by_cases hs : itemKey it ∈ seen
    · rw [if_pos hs]
      simp [ih seen]
    · rw [if_neg hs]
      exact ih (itemKey it :: seen)

theorem remove_duplicates_sublist (items : List Item) :
    (remove_duplicates items).1.Sublist items :=
  dedupGo_sublist [] items

theorem remove_duplicates_of_nodup {items : List Item}
    (h : (items.map itemKey).Nodup) : remove_duplicates items = (items, []) := by
  unfold remove_duplicates
  rw [dedupGo_of_nodup [] items h (by simp)]
  simp

theorem filter_subtotals_sublist (items : List Item) :
    (filter_subtotals items).Sublist items :=
  List.filter_sublist items

theorem filter_subtotals_idem (items : List Item) :
    filter_subtotals (filter_subtotals items) = filter_subtotals items := by
  unfold filter_subtotals
  rw [List.filter_filter]
  simp

theorem sum_map_sub_eq (y : ℚ) : ∀ (l : List Token),
    ((l.map (fun u => y - u.cy)).sum) = l.length * y - (l.map Token.cy).sum := by
  intro l
  induction l with
  | nil => simp
  | cons a rest ih =>
    simp only [List.map_cons, List.sum_cons, List.length_cons, ih]
    push_cast
    ring

theorem sum_abs_le {y tol : ℚ} : ∀ {l : List Token}, (∀ u ∈ l, |y - u.cy| ≤ tol) →
    |((l.map (fun u => y - u.cy)).sum)| ≤ l.length * tol := by
  intro l
  induction l with
  | nil => simp
  | cons a rest ih =>
    intro h
    simp only [List.map_cons, List.sum_cons, List.length_cons]
    calc |(y - a.cy) + ((rest.map (fun u => y - u.cy)).sum)|
        ≤ |y - a.cy| + |((rest.map (fun u => y - u.cy)).sum)| := abs_add _ _
      _ ≤ tol + rest.length * tol := by
          gcongr
          · exact h a (List.mem_cons_self _ _)
          · exact ih (fun u hu => h u (List.mem_cons_of_mem _ hu))
      _ = ((rest.length : ℚ) + 1) * tol := by ring
      _ = ((rest.length + 1 : ℕ) : ℚ) * tol := by push_cast; ring

theorem abs_sub_meanY_le {cur : List Token} (hne : cur ≠ []) {y tol : ℚ}
    (h : ∀ u ∈ cur, |y - u.cy| ≤ tol) : |y - meanY cur| ≤ tol := by
  have hn : (0 : ℚ) < cur.length := by
    have := List.length_pos.mpr hne
    exact_mod_cast this
  have heq : y - meanY cur = ((cur.map (fun u => y - u.cy)).sum) / cur.length := by
    rw [sum_map_sub_eq, meanY]
    field_simp
    ring
  rw [heq, abs_div, abs_of_pos hn, div_le_iff₀ hn]
  calc |((cur.map (fun u => y - u.cy)).sum)| ≤ cur.length * tol := sum_abs_le h
    _ = tol * cur.length := by ring

theorem groupGo_single (tol : ℚ) :
    ∀ (rest cur : List Token) (rows : List (List Token)), cur ≠ [] →
      (∀ a ∈ cur ++ rest, ∀ b ∈ cur ++ rest, |a.cy - b.cy| ≤ tol) →
      groupGo tol rest cur rows = rows ++ [cur ++ rest] := by
  intro rest
  induction rest with
  | nil => intro cur rows _ _; rw [groupGo]; simp
  | cons it rest2 ih =>
    intro cur rows hne hpair
    have hit : it ∈ cur ++ it :: rest2 := by simp
    have hcond : |it.cy - meanY cur| ≤ tol := by
      apply abs_sub_meanY_le hne
      intro u hu
      exact hpair it hit u (List.mem_append_left _ hu)
    rw [groupGo, if_pos hcond]
    rw [ih (cur ++ [it]) rows (by simp) ?hp]
    · simp
    case hp =>
      intro a ha b hb
      apply hpair <;> simp at ha hb ⊢ <;> tauto

theorem sortByY_perm (items : List Token) : (sortByY items).Perm items :=
  List.perm_insertionSort _ items

theorem sortByX_perm (row : List Token) : (sortByX row).Perm row :=
  List.perm_insertionSort _ row

theorem sortByX_sorted (row : List Token) :
    (sortByX row).Sorted (fun a b : Token => a.cx ≤ b.cx) :=
  List.sorted_insertionSort _ row

theorem group_by_row_single {tokens : List Token} {tol : ℚ} (hne : tokens ≠ [])
    (hpair : ∀ a ∈ tokens, ∀ b ∈ tokens, |a.cy - b.cy| ≤ tol) :
    group_by_row tokens tol = [sortByX (sortByY tokens)] := by
  unfold group_by_row
  rcases hs : sortByY tokens with _ | ⟨t, rest⟩
  · exfalso
    exact hne (((sortByY_perm tokens).symm.trans (hs ▸ List.Perm.refl _)).eq_nil)
  · have hmem : ∀ a ∈ [t] ++ rest, a ∈ tokens := by
      intro a ha
      have : a ∈ sortByY tokens := by rw [hs]; simpa using ha
      exact (sortByY_perm tokens).subset this
    dsimp only
    rw [groupGo_single tol rest [t] [] (by simp)
      (fun a ha b hb => hpair a (hmem a ha) b (hmem b hb))]
    simp

theorem filter_chain_eq (t : List Char) :
    ((t.filter (· ≠ '₹')).filter (· ≠ '$')).filter (· ≠ ',') =
      t.filter (fun c => !(c = '₹' || c = '$' || c = ',')) := by
  rw [List.filter_filter, List.filter_filter]
  apply List.filter_congr
  intro c _
  by_cases h1 : c = '₹' <;> by_cases h2 : c = '$' <;> by_cases h3 : c = ',' <;>
    simp [h1, h2, h3]

theorem is_numeric_eq_numericSpec (text : List Char) :
    is_numeric text = numericSpec text := by
  unfold is_numeric numericSpec numClean
  by_cases hemp : (pyStrip text).isEmpty
  · rw [if_pos hemp]
    rw [List.isEmpty_iff] at hemp
    rw [hemp]
    decide
  · rw [if_neg hemp, filter_chain_eq]

theorem parseRowsGo_eq : ∀ (rows : List (List Token)) (i : ℕ),
    parseRowsGo i rows = (rows.enumFrom i).filterMap (fun p => parse_row p.2 p.1) := by
  intro rows
  induction rows with
  | nil => intro i; rfl
  | cons row rest ih =>
    intro i
    rcases h : parse_row row i with _ | it <;>
      simp [parseRowsGo, h, List.enumFrom_cons, ih]

theorem keepItem_eq_not_subtotalDrop (it : Item) :
    keepItem it = !subtotalDrop it := by
  unfold keepItem subtotalDrop
  by_cases hk : subtotal_keywords.any (fun kw => containsSub kw (pyLower it.item_name))
  · rw [if_pos hk]
    simp [hk]
  · rw [if_neg hk]
    by_cases hq : it.item_quantity = 0 ∨ (it.item_quantity = 1 ∧ it.item_rate = 0)
    · rw [if_pos hq]
      rcases hq with hq | ⟨hqa, hqb⟩
      · simp [hq]
      · simp [hqa, hqb]
    · rw [if_neg hq]
      push_neg at hq
      obtain ⟨hq0, hq1⟩ := hq
      by_cases h1 : it.item_quantity = 1
      · simp [hk, hq0, h1, hq1 h1]
      · simp [hk, hq0, h1]

/-- C1 (amended): for every row with at least 3 numeric tokens, `_parse_row`
returns the item whose quantity, rate and amount are the parsed values of the
last three numeric columns in left-to-right order, whose name is the
whitespace-trimmed single-space join of all tokens strictly before the
quantity column, and whose confidence is the arithmetic mean of those three
tokens' OCR confidences. -/
theorem claim1_parse_row_three_numeric (row : List Token) (idx : ℕ)
    (h3 : 3 ≤ (numeric_indices (row.map Token.text)).length) :
    parse_row row idx =
      some
        { item_name := pyStrip (joinSpace ((row.map Token.text).take (qtyIdx row)))
          item_quantity := parse_float ((row.map Token.text).getD (qtyIdx row) [])
          item_rate := parse_float ((row.map Token.text).getD (rateIdx row) [])
          item_amount := parse_float ((row.map Token.text).getD (amountIdx row) [])
          confidence :=
            ((row.map Token.confidence).getD (qtyIdx row) 0 +
              (row.map Token.confidence).getD (rateIdx row) 0 +
              (row.map Token.confidence).getD (amountIdx row) 0) / 3
          row_idx := idx } := by
  have hlen : ¬ row.length < 2 := by
    have h1 := numeric_indices_length_le (row.map Token.text)
    rw [List.length_map] at h1
    omega
  unfold parse_row
  rw [if_neg hlen]
  dsimp only
  rw [if_pos h3]
  rfl

/-- C1 witness: the `["Consultation", "Fee", "1", "500", "500"]` row parses to
name `"Consultation Fee"`, quantity 1, rate 500, amount 500. -/
theorem claim1_witness :
    3 ≤ (numeric_indices (demoRow.map Token.text)).length ∧
      parse_row demoRow 0 = some ⟨"Consultation Fee".toList, 1, 500, 500, 1, 0⟩ :=
  ⟨by decide,
    (claim1_parse_row_three_numeric demoRow 0 (by decide)).trans (by
      have hq : qtyIdx demoRow = 2 := by decide
      have hr : rateIdx demoRow = 3 := by decide
      have ha : amountIdx demoRow = 4 := by decide
      rw [hq, hr, ha]
      simp [demoRow, mkToken, parse_float, floatClean, pyStrip, isWsCh, removeRs,
        pyFloat?, splitOnBy, pySigned?, pyMantissa?, splitOnCh, decDigits?,
        digitsVal, isDigitCh, joinSpace]
      norm_num)⟩

/-- C1 counterexample: on the row with texts `[" a", "1", "2", "3"]` the
produced name is `"a"`, while the plain single-space join of the tokens
before the quantity column is `" a"` — the claim's un-trimmed join is not the
name the parser returns. -/
theorem claim1_counterexample :
    (parse_row spacedRow 0).map Item.item_name = some "a".toList ∧
      joinSpace ((spacedRow.map Token.text).take (qtyIdx spacedRow)) = " a".toList ∧
      ("a".toList : List Char) ≠ " a".toList := by
  refine ⟨?_, by decide, by decide⟩
  decide

/-- C2 (amended): a token is classified numeric iff, after stripping and
removing the currency markers `₹` and `$` and comma thousands separators
(`Rs` is not removed by `_is_numeric`), the remaining string parses as a
float. -/
theorem claim2_is_numeric_spec (text : List Char) :
    is_numeric text = numericSpec text :=
  is_numeric_eq_numericSpec text

/-- C2 counterexample: `"Rs500"` is not classified as numeric, against the
claim's `Rs`-stripping reading. -/
theorem claim2_counterexample : is_numeric "Rs500".toList = false := by
  decide

/-- C3 (amended): the audit trail consists of the initial count, one message
per item dropped by the field/amount check, the count after that check, one
message per removed duplicate followed by a summary line when any duplicate
was found, and the final count after subtotal filtering; subtotal-filter
drops produce no message and no separate post-deduplication count is
recorded. -/
theorem claim3_audit_messages (items : List Item) :
    (validate_and_clean items).2 =
      startMsg items.length ::
        (((items.filter (fun it => !(validate_item it).1)).map
            (fun it => (validate_item it).2)) ++
          [afterValMsg (items.filter (fun it => (validate_item it).1)).length] ++
          (dedupGo [] (items.filter (fun it => (validate_item it).1))).2.1 ++
          (if 0 < (dedupGo [] (items.filter (fun it => (validate_item it).1))).2.2 then
            [removedMsg (dedupGo [] (items.filter (fun it => (validate_item it).1))).2.2]
          else []) ++
          [afterSubMsg (filter_subtotals
            (dedupGo [] (items.filter (fun it => (validate_item it).1))).1).length]) ∧
    (dedupGo [] (items.filter (fun it => (validate_item it).1))).2.1.length =
      (dedupGo [] (items.filter (fun it => (validate_item it).1))).2.2 := by
  constructor
  · unfold validate_and_clean remove_duplicates
    rw [validatePass_eq]
    simp [List.append_assoc]
  · exact dedupGo_msg_count [] _

/-- C3 counterexample: validating `[itemApple, itemGst]` drops the GST item
in the subtotal filter, yet the trail is exactly the three count messages —
no message mentions the dropped item and no count follows the deduplication
stage on its own. -/
theorem claim3_counterexample :
    validate_and_clean [itemApple, itemGst] =
      ([itemApple], [startMsg 2, afterValMsg 2, afterSubMsg 1]) ∧
      ∀ m ∈ (validate_and_clean [itemApple, itemGst]).2,
        containsSub "GST".toList m = false ∧ containsSub "gst".toList m = false := by
  constructor
  · decide
  · decide

/-- C5: when every pair of tokens lies within `y_tolerance` in `center.y`,
`group_by_row` returns exactly one row, and that row is a permutation of the
input sorted by ascending `center.x`. -/
theorem claim5_single_row (tokens : List Token) (tol : ℚ) (hne : tokens ≠ [])
    (hpair : ∀ a ∈ tokens, ∀ b ∈ tokens, |a.cy - b.cy| ≤ tol) :
    (group_by_row tokens tol).length = 1 ∧
      ∀ r ∈ group_by_row tokens tol,
        r.Perm tokens ∧ List.Sorted (fun a b : Token => a.cx ≤ b.cx) r := by
  rw [group_by_row_single hne hpair]
  refine ⟨rfl, ?_⟩
  intro r hr
  rw [List.mem_singleton] at hr
  subst hr
  exact ⟨(sortByX_perm _).trans (sortByY_perm _), sortByX_sorted _⟩

/-- C5 witness: two tokens three pixels apart vertically (tolerance 10) land
in one row, sorted by `center.x`. -/
theorem claim5_witness :
    ([lineTokenA, lineTokenB] : List Token) ≠ [] ∧
      (∀ a ∈ [lineTokenA, lineTokenB], ∀ b ∈ [lineTokenA, lineTokenB],
        |a.cy - b.cy| ≤ 10) ∧
      ((group_by_row [lineTokenA, lineTokenB] 10).length = 1 ∧
        ∀ r ∈ group_by_row [lineTokenA, lineTokenB] 10,
          r.Perm [lineTokenA, lineTokenB] ∧
            List.Sorted (fun a b : Token => a.cx ≤ b.cx) r) := by
  have hpair : ∀ a ∈ [lineTokenA, lineTokenB], ∀ b ∈ [lineTokenA, lineTokenB],
      |a.cy - b.cy| ≤ 10 := by
    intro a ha b hb
    rcases List.mem_cons.mp ha with rfl | ha <;> rcases List.mem_cons.mp hb with rfl | hb <;>
      simp_all [lineTokenA, lineTokenB, mkToken] <;> norm_num
  exact ⟨by simp, hpair, claim5_single_row _ 10 (by simp) hpair⟩

theorem validate_and_clean_fst (items : List Item) :
    (validate_and_clean items).1 =
      filter_subtotals (dedupGo [] (items.filter (fun it => (validate_item it).1))).1 := by
  unfold validate_and_clean remove_duplicates
  rw [validatePass_eq]

/-- C6: the Validator is idempotent — a second `validate_and_clean` run on
the first run's item list returns that item list unchanged, with a trail of
three bare count messages and no drop message. -/
theorem claim6_idempotent (items : List Item) :
    validate_and_clean ((validate_and_clean items).1) =
      ((validate_and_clean items).1,
        [startMsg (validate_and_clean items).1.length,
          afterValMsg (validate_and_clean items).1.length,
          afterSubMsg (validate_and_clean items).1.length]) := by
  rw [validate_and_clean_fst items]
  set kept := items.filter (fun it => (validate_item it).1) with hkept
  set dd := (dedupGo [] kept).1 with hdd
  set out := filter_subtotals dd with hout
  have hvalid : ∀ it ∈ out, (validate_item it).1 = true := by
    intro it hit
    have h1 : it ∈ dd := (filter_subtotals_sublist dd).subset hit
    have h2 : it ∈ kept := (dedupGo_sublist [] kept).subset h1
    rw [hkept] at h2
    exact List.of_mem_filter (p := fun it => (validate_item it).1) h2
  have hnodup : (out.map itemKey).Nodup := by
    have h1 := (dedupGo_keys [] kept).1
    exact List.Nodup.sublist ((filter_subtotals_sublist dd).map itemKey) (hdd ▸ h1)
  have hkeep : ∀ it ∈ out, keepItem it = true := by
    intro it hit
    rw [hout, filter_subtotals] at hit
    exact List.of_mem_filter (p := keepItem) hit
  unfold validate_and_clean remove_duplicates
  rw [validatePass_eq]
  have hfilter1 : out.filter (fun it => (validate_item it).1) = out :=
    List.filter_eq_self.mpr hvalid
  have hfilter2 : out.filter (fun it => !(validate_item it).1) = [] := by
    rw [List.filter_eq_nil_iff]
    intro it hit
    simp [hvalid it hit]
  have hdedup : dedupGo [] out = (out, [], 0) :=
    dedupGo_of_nodup [] out hnodup (by simp)
  have hsub : filter_subtotals out = out :=
    List.filter_eq_self.mpr hkeep
  simp only [hfilter1, hfilter2, hdedup, hsub, List.map_nil]
  simp

/-- C7: the core is total on its inputs — grouping an empty token list gives
no rows, `parse_rows` is exactly the skip-failures-and-continue map over the
indexed rows (a row on which `_parse_row` fails contributes nothing while the
remaining rows are still processed), and the full pipeline on an empty token
list returns an empty validated-item list with the three count messages
rather than an error. -/
theorem claim7_total_pipeline (tol : ℚ) (rows : List (List Token)) :
    group_by_row [] tol = [] ∧
      parse_rows rows = rows.enum.filterMap (fun p => parse_row p.2 p.1) ∧
      validate_and_clean (parse_rows (group_by_row [] tol)) =
        ([], [startMsg 0, afterValMsg 0, afterSubMsg 0]) := by
  refine ⟨rfl, parseRowsGo_eq rows 0, ?_⟩
  have h0 : group_by_row [] tol = [] := rfl
  rw [h0]
  decide

/-- C8: the subtotal/header filter keeps exactly the items that fail the
spec's drop condition (keyword in lower-cased name, zero quantity, or
quantity one with zero rate); a `"GST 18%"` item is dropped whatever its
numeric fields, and a quantity-1 rate-0 item is dropped whatever its name. -/
theorem claim8_subtotal_filter :
    (∀ items : List Item,
        filter_subtotals items = items.filter (fun it => !subtotalDrop it)) ∧
      (∀ q r a c : ℚ, ∀ i : ℕ,
        filter_subtotals [⟨"GST 18%".toList, q, r, a, c, i⟩] = []) ∧
      (∀ (nm : List Char) (a c : ℚ) (i : ℕ),
        filter_subtotals [⟨nm, 1, 0, a, c, i⟩] = []) := by
  refine ⟨?_, ?_, ?_⟩
  · intro items
    unfold filter_subtotals
    exact List.filter_congr (fun it _ => keepItem_eq_not_subtotalDrop it)
  · intro q r a c i
    have hkw : ∃ kw ∈ subtotal_keywords,
        containsSub kw (pyLower ['G', 'S', 'T', ' ', '1', '8', '%']) = true := by decide
    simp [filter_subtotals, List.filter, keepItem, hkw]
  · intro nm a c i
    simp [filter_subtotals, List.filter, keepItem]

/-- C9: the Validator's output is a sublist of its input — every surviving
item is one of the input items, unmodified, in its original relative order,
and nothing new is created. -/
theorem claim9_output_sublist (items : List Item) :
    (validate_and_clean items).1.Sublist items := by
  rw [validate_and_clean_fst items]
  exact ((filter_subtotals_sublist _).trans (dedupGo_sublist [] _)).trans
    (List.filter_sublist items)

